import Mathlib

set_option maxRecDepth 40000

/-!
Shallow embedding of `validate_daily_cost.py` (daily-cost validation of
`coder_metadata` resource blocks in Terraform files).

Texts are modelled as `List Char`.  Python regular-expression matching for
the two concrete patterns used by the script is implemented directly: both
patterns are deterministic (every quantifier is a maximal character-class
run followed by a character outside the class), so greedy matching with
backtracking degenerates to "take the maximal run, then require the next
literal".  Python `float()` is modelled by an exact decimal parser into
`Rat` (CPython's grammar: optional sign, digit parts with underscores
between digits, optional fraction and exponent, case-insensitive
inf/infinity/nan, surrounding whitespace).  The model evaluates finite
decimals exactly; IEEE-754 overflow (`OverflowError` for huge exponents)
and subnormal underflow-to-zero are outside the model's range of interest.
-/

/-- Whitespace class of Python's `\s` (ASCII part) and of `str.strip()`. -/
def isPySpace (c : Char) : Bool :=
  c = ' ' || c = '\t' || c = '\n' || c = '\r' || c = '\x0b' || c = '\x0c'

/-- Characters removed by `value.strip('"\'')`. -/
def isQuoteChar (c : Char) : Bool :=
  c = '"' || c = '\''

/-- Python `s.strip()` : drop leading and trailing whitespace. -/
def pyTrim (s : List Char) : List Char :=
  ((s.dropWhile isPySpace).reverse.dropWhile isPySpace).reverse

/-- Python `value.strip('"\'')` : drop ALL leading and trailing quote
characters (single or double, in any combination). -/
def pyStripQuotes (s : List Char) : List Char :=
  ((s.dropWhile isQuoteChar).reverse.dropWhile isQuoteChar).reverse

/-- Value of a decimal digit character. -/
def digitVal (c : Char) : Nat := c.toNat - '0'.toNat

/-- Numeric value of a list of decimal digits (most significant first). -/
def digitsToNat (ds : List Char) : Nat :=
  ds.foldl (fun acc c => 10 * acc + digitVal c) 0

/-- Consume `digit (['_'] digit)*` from the front of the list, returning the
digits (underscores removed) and the rest.  Called on a list whose head is a
digit; a later underscore is consumed only when followed by a digit
(CPython's rule that underscores sit between digits). -/
def digitsGo : List Char → (List Char × List Char)
  | '_' :: c :: rest =>
    if c.isDigit then
      let (ds, r) := digitsGo rest
      (c :: ds, r)
    else ([], '_' :: c :: rest)
  | c :: rest =>
    if c.isDigit then
      let (ds, r) := digitsGo rest
      (c :: ds, r)
    else ([], c :: rest)
  | [] => ([], [])

/-- A digit part per CPython's float grammar: nonempty, starts with a digit. -/
def parseDigits (s : List Char) : Option (List Char × List Char) :=
  match s with
  | c :: _ => if c.isDigit then some (digitsGo s) else none
  | [] => none

/-- Parse `digitpart? ('.' digitpart?)? exponent?` requiring at least one
mantissa digit.  Returns (mantissa digits value, number of fraction digits,
exponent, unconsumed rest). -/
def parseNumber (s : List Char) : Option (Nat × Nat × Int × List Char) :=
  let p1 := match parseDigits s with
    | some (ds, r) => (ds, r)
    | none => (([] : List Char), s)
  let ds1 := p1.1
  let p2 := match p1.2 with
    | '.' :: rest =>
      (match parseDigits rest with
       | some (ds, r) => (ds, r)
       | none => (([] : List Char), rest))
    | r => (([] : List Char), r)
  let ds2 := p2.1
  if ds1 = [] && ds2 = [] then none
  else
    match p2.2 with
    | e :: rest =>
      if e = 'e' || e = 'E' then
        let p3 : Int × List Char := match rest with
          | '+' :: r => (1, r)
          | '-' :: r => (-1, r)
          | r => (1, r)
        match parseDigits p3.2 with
        | some (eds, r4) =>
          some (digitsToNat (ds1 ++ ds2), ds2.length, p3.1 * digitsToNat eds, r4)
        | none => none
      else some (digitsToNat (ds1 ++ ds2), ds2.length, 0, e :: rest)
    | [] => some (digitsToNat (ds1 ++ ds2), ds2.length, 0, [])

/-- Result of Python `float()` on a string: a finite rational, a signed
infinity, or nan. -/
inductive PyFloatVal where
  | finite (q : Rat)
  | infVal (neg : Bool)
  | nanVal
deriving DecidableEq

/-- Exact value of `m / 10^k * 10^e` (sign applied), as a rational. -/
def floatValOf (neg : Bool) (m k : Nat) (e : Int) : Rat :=
  let d : Int := e - (k : Int)
  let mag : Rat :=
    if 0 ≤ d then mkRat (m * 10 ^ d.toNat) 1
    else mkRat m (10 ^ (-d).toNat)
  if neg then -mag else mag

/-- Python `float(s)`: strip surrounding whitespace, optional sign, then
either (case-insensitively) inf/infinity/nan or a decimal number consuming
the entire remainder; `none` models a raised `ValueError`. -/
def pyFloat? (s : List Char) : Option PyFloatVal :=
  match pyTrim s with
  | [] => none
  | t =>
    let p : Bool × List Char := match t with
      | '-' :: r => (true, r)
      | '+' :: r => (false, r)
      | r => (false, r)
    let low := p.2.map Char.toLower
    if low = "inf".toList || low = "infinity".toList then
      some (PyFloatVal.infVal p.1)
    else if low = "nan".toList then some PyFloatVal.nanVal
    else
      match parseNumber p.2 with
      | some (m, k, e, []) => some (PyFloatVal.finite (floatValOf p.1 m k e))
      | _ => none

/-- The comparison `num_value > 0` on a `float()` result (a rational is
positive iff its numerator is; `inf > 0` holds, `nan > 0` does not). -/
def pyFloatPosVal : PyFloatVal → Bool
  | PyFloatVal.finite q => decide (0 < q.num)
  | PyFloatVal.infVal neg => !neg
  | PyFloatVal.nanVal => false

/-- `float(s) > 0`, with a failed parse counting as `false`. -/
def pyFloatPos (s : List Char) : Bool :=
  match pyFloat? s with
  | some v => pyFloatPosVal v
  | none => false

/-- `DailyCostValidator.validate_daily_cost_value`: empty/None guard, strip
all surrounding quotes, parse as float, compare with zero; an exception from
`float` yields `False`. -/
def validate_daily_cost_value (value : List Char) : Bool :=
  if value = [] then false
  else pyFloatPos (pyStripQuotes value)

/-- Modelled from the spec: strip a SINGLE layer of surrounding single or
double quotes (remove the first and last character when the string has
length at least two and both are quote characters).  This follows the
spec's words for comparison with the source's strip-all-quotes behaviour. -/
def stripOneQuoteLayer (s : List Char) : List Char :=
  match s.head?, s.getLast? with
  | some a, some b =>
    if 2 ≤ s.length && isQuoteChar a && isQuoteChar b then
      (s.drop 1).dropLast
    else s
  | _, _ => s

/-- The character class `[^"]`. -/
def notQuoteCh (c : Char) : Bool := c ≠ '"'

/-- The character class `[^}]`. -/
def notBrace (c : Char) : Bool := c ≠ '}'

/-- The character class `[^\s\n]` (equal to non-whitespace, `\n` being
whitespace). -/
def notSpace (c : Char) : Bool := !isPySpace c

/-- Match a literal character sequence at the front of the input, returning
the rest on success. -/
def matchLit : List Char → List Char → Option (List Char)
  | [], s => some s
  | _ :: _, [] => none
  | c :: ps, x :: xs => if x = c then matchLit ps xs else none

/-- Match `\s+` (one or more whitespace characters, maximal run). -/
def ws1Step : List Char → Option (List Char)
  | [] => none
  | c :: rest => if isPySpace c then some (rest.dropWhile isPySpace) else none

/-- Match a maximal nonempty run of characters satisfying `p`, returning the
run and the rest. -/
def tokStep (p : Char → Bool) : List Char → Option (List Char × List Char)
  | [] => none
  | c :: rest => if p c then some (c :: rest.takeWhile p, rest.dropWhile p) else none

/-- The literal pieces of the resource pattern
`resource\s+"coder_metadata"\s+"([^"]+)"\s*\{([^}]+)\}`. -/
def resourceKw : List Char := "resource".toList

/-- The quoted fixed type keyword `"coder_metadata"`. -/
def typeKw : List Char := '"' :: "coder_metadata".toList ++ ['"']

/-- Attempt the resource pattern at the front of `cs`.  Every quantifier in
the pattern is a character-class run followed by a character outside the
class, so greedy matching is deterministic.  Returns (group 1 = resource
name, group 2 = body, unconsumed rest). -/
def matchAt (cs : List Char) : Option (List Char × List Char × List Char) :=
  match matchLit resourceKw cs with
  | none => none
  | some s1 =>
    match ws1Step s1 with
    | none => none
    | some s2 =>
      match matchLit typeKw s2 with
      | none => none
      | some s3 =>
        match ws1Step s3 with
        | none => none
        | some s4 =>
          match matchLit ['"'] s4 with
          | none => none
          | some s5 =>
            match tokStep notQuoteCh s5 with
            | none => none
            | some (nm, s6) =>
              match matchLit ['"'] s6 with
              | none => none
              | some s7 =>
                match matchLit ['{'] (s7.dropWhile isPySpace) with
                | none => none
                | some s9 =>
                  match tokStep notBrace s9 with
                  | none => none
                  | some (body, s10) =>
                    match matchLit ['}'] s10 with
                    | none => none
                    | some s11 => some (nm, body, s11)

/-- One match of `re.finditer`: captured name, captured body, start index. -/
structure RMatch where
  rname : List Char
  rbody : List Char
  rpos : Nat
deriving DecidableEq

/-- Left-to-right non-overlapping scan of `re.finditer`: try the pattern at
each index; on success emit the match and resume at its end, otherwise
advance one character.  The fuel argument bounds the iteration count; each
step advances the index, so `cs.length + 1` steps always suffice. -/
def finditerGo (cs : List Char) : Nat → Nat → List RMatch
  | 0, _ => []
  | Nat.succ fuel, p =>
    if cs.length ≤ p then []
    else
      match matchAt (cs.drop p) with
      | some (nm, body, rest) =>
        ⟨nm, body, p⟩ :: finditerGo cs fuel (p + ((cs.drop p).length - rest.length))
      | none => finditerGo cs fuel (p + 1)

/-- `re.finditer(pattern, content)` for the resource pattern. -/
def pyFinditer (cs : List Char) : List RMatch :=
  finditerGo cs (cs.length + 1) 0

/-- The literal piece of the attribute pattern
`daily_cost\s*=\s*([^\s\n]+)`. -/
def dcKw : List Char := "daily_cost".toList

/-- Attempt the attribute pattern at the front of the input, returning the
captured token (group 1, the maximal run of non-whitespace characters). -/
def dcMatchAt (cs : List Char) : Option (List Char) :=
  match matchLit dcKw cs with
  | none => none
  | some s1 =>
    match matchLit ['='] (s1.dropWhile isPySpace) with
    | none => none
    | some s3 =>
      match tokStep notSpace (s3.dropWhile isPySpace) with
      | none => none
      | some (tok, _) => some tok

/-- `re.search` for the attribute pattern: first index where the whole
pattern matches. -/
def dcSearch : List Char → Option (List Char)
  | [] => none
  | c :: rest =>
    match dcMatchAt (c :: rest) with
    | some tok => some tok
    | none => dcSearch rest

/-- Count of newline characters, for `_get_line_number`. -/
def countNL (s : List Char) : Nat := (s.filter (fun c => c = '\n')).length

/-- The per-resource dictionary built during extraction. -/
structure ResourceInfo where
  file : List Char
  resource_name : List Char
  resource_block : List Char
  has_daily_cost : Bool
  daily_cost_value : Option (List Char)
  line_number : Nat
deriving DecidableEq

/-- Build the resource dictionary from one regex match (the body is stored
stripped; the attribute search runs on the unstripped captured body). -/
def mkResourceInfo (fp content : List Char) (m : RMatch) : ResourceInfo :=
  { file := fp
    resource_name := m.rname
    resource_block := pyTrim m.rbody
    has_daily_cost := (dcSearch m.rbody).isSome
    daily_cost_value := dcSearch m.rbody
    line_number := countNL (content.take m.rpos) + 1 }

/-- Issue kinds appended by the script (the `type` dictionary key). -/
inductive IssueType where
  | parse_error
  | missing_daily_cost
  | invalid_daily_cost
deriving DecidableEq

/-- An issue dictionary.  The Python dicts carry different key sets, so
every key that is absent on some issue kind is an `Option`; in particular
`message := none` models a dictionary WITHOUT a `message` key. -/
structure Issue where
  type : IssueType
  file : List Char
  resource_name : Option (List Char) := none
  line_number : Option Nat := none
  daily_cost_value : Option (List Char) := none
  message : Option (List Char) := none
  error : Option (List Char) := none
deriving DecidableEq

/-- The `parse_error` issue dict: keys `type`, `file`, `error` only — it has
no `message` key. -/
def parseErrorIssue (fp err : List Char) : Issue :=
  { type := IssueType.parse_error, file := fp, error := some err }

/-- Message text of a `missing_daily_cost` issue (source text without the
quote ornaments). -/
def missingMsg (name : List Char) : List Char :=
  "Resource ".toList ++ name ++ " is missing required daily_cost property".toList

/-- Message text of an `invalid_daily_cost` issue. -/
def invalidMsg (name : List Char) (v : Option (List Char)) : List Char :=
  "Resource ".toList ++ name ++ " has invalid daily_cost value: ".toList ++ v.getD []

/-- The `missing_daily_cost` issue dict (no `daily_cost_value` key). -/
def missingIssue (r : ResourceInfo) : Issue :=
  { type := IssueType.missing_daily_cost, file := r.file
    resource_name := some r.resource_name, line_number := some r.line_number
    message := some (missingMsg r.resource_name) }

/-- The `invalid_daily_cost` issue dict (carries the raw token). -/
def invalidIssue (r : ResourceInfo) : Issue :=
  { type := IssueType.invalid_daily_cost, file := r.file
    resource_name := some r.resource_name, line_number := some r.line_number
    daily_cost_value := r.daily_cost_value
    message := some (invalidMsg r.resource_name r.daily_cost_value) }

/-- The mutable aggregator of `DailyCostValidator`. -/
structure Validator where
  issues : List Issue
  resources_checked : Nat
  resources_with_issues : Nat
deriving DecidableEq

/-- Fresh validator state (`__init__`). -/
def initValidator : Validator := ⟨[], 0, 0⟩

/-- `parse_coder_metadata_resources` on successfully read content: one
dictionary per `finditer` match. -/
def parse_coder_metadata_resources (fp content : List Char) : List ResourceInfo :=
  (pyFinditer content).map (mkResourceInfo fp content)

/-- Outcome of opening and reading one file: the decoded text, or the
message of the exception raised while reading/decoding it. -/
inductive ReadResult where
  | ok (text : List Char)
  | readError (msg : List Char)
deriving DecidableEq

/-- A Terraform file as seen by the run: its path and its read outcome. -/
structure TfFile where
  path : List Char
  content : ReadResult
deriving DecidableEq

/-- Does reading this file raise? -/
def isErrFile (f : TfFile) : Bool :=
  match f.content with
  | ReadResult.readError _ => true
  | ReadResult.ok _ => false

/-- Parsing one file: on a read/decode failure the exception handler
appends a single `parse_error` issue and the file yields no records. -/
def parseFile (st : Validator) (f : TfFile) : Validator × List ResourceInfo :=
  match f.content with
  | ReadResult.readError e => ({ st with issues := st.issues ++ [parseErrorIssue f.path e] }, [])
  | ReadResult.ok c => (st, parse_coder_metadata_resources f.path c)

/-- The parsing loop of `run_validation`: every file is processed and the
records are concatenated in file order. -/
def parsePhase (st : Validator) : List TfFile → Validator × List ResourceInfo
  | [] => (st, [])
  | f :: fs =>
    let p1 := parseFile st f
    let p2 := parsePhase p1.1 fs
    (p2.1, p1.2 ++ p2.2)

/-- One iteration of `validate_resources`: increment the checked counter,
then flag a missing or an invalid attribute (at most one issue). -/
def validateOne (st : Validator) (r : ResourceInfo) : Validator :=
  let st1 := { st with resources_checked := st.resources_checked + 1 }
  if !r.has_daily_cost then
    { st1 with resources_with_issues := st1.resources_with_issues + 1
               issues := st1.issues ++ [missingIssue r] }
  else if !validate_daily_cost_value (r.daily_cost_value.getD []) then
    { st1 with resources_with_issues := st1.resources_with_issues + 1
               issues := st1.issues ++ [invalidIssue r] }
  else st1

/-- `validate_resources`: fold the per-resource step over the records. -/
def validate_resources (st : Validator) : List ResourceInfo → Validator
  | [] => st
  | r :: rs => validate_resources (validateOne st r) rs

/-- The issues the per-resource step appends for one record (none, one
missing, or one invalid). -/
def issuesOf (r : ResourceInfo) : List Issue :=
  if !r.has_daily_cost then [missingIssue r]
  else if !validate_daily_cost_value (r.daily_cost_value.getD []) then [invalidIssue r]
  else []

/-- Run status. -/
inductive RunStatus where
  | PASS
  | FAIL
deriving DecidableEq

/-- The report dictionary of `generate_report`. -/
structure Report where
  total_resources_checked : Nat
  resources_with_issues : Nat
  compliance_rate : List Char
  issues : List Issue
  status : RunStatus
deriving DecidableEq

/-- Format `(checked - issues) / checked * 100` to one decimal place
(`f"{x:.1f}%"`): the exact rate in tenths of a percent, rounded to the
nearest integer with ties to even, then printed as `d.d%`.  (CPython
formats the nearest binary double of the rate; for rates whose tenths
position needs rounding this agrees with exact round-half-even except for
exact odd-multiple-of-one-twentieth rates, which no small run produces.) -/
def fmtPct1 (checked issues : Nat) : List Char :=
  let n := (checked - issues) * 1000
  let q0 := n / checked
  let r := n % checked
  let q :=
    if checked < 2 * r then q0 + 1
    else if 2 * r = checked then (if q0 % 2 = 0 then q0 else q0 + 1)
    else q0
  Nat.toDigits 10 (q / 10) ++ '.' :: Nat.digitChar (q % 10) :: ['%']

/-- `generate_report`: summary counters, compliance rate (`"0%"` when no
resource was checked), the issue list, and PASS iff no flagged resource. -/
def generate_report (v : Validator) : Report :=
  { total_resources_checked := v.resources_checked
    resources_with_issues := v.resources_with_issues
    compliance_rate :=
      if 0 < v.resources_checked then fmtPct1 v.resources_checked v.resources_with_issues
      else "0%".toList
    issues := v.issues
    status := if v.resources_with_issues = 0 then RunStatus.PASS else RunStatus.FAIL }

/-- `run_validation` on a list of discovered files: parse every file,
validate all records, build the report, and return the exit code computed
at the end of `run_validation` (`0` iff the status is PASS). -/
def runCore (files : List TfFile) : Validator × Report × Nat :=
  let pr := parsePhase initValidator files
  let st2 := validate_resources pr.1 pr.2
  let rep := generate_report st2
  (st2, rep, if rep.status = RunStatus.PASS then 0 else 1)

/-- `print_report` reads `issue['message']` for every issue in the list
unconditionally, so printing completes without raising exactly when every
issue dictionary has a `message` key. -/
def printReportOk (rep : Report) : Bool :=
  rep.issues.all (fun i => i.message.isSome)

/-- The observable exit code of the whole process: the code returned by
`run_validation` when `print_report` completes, and `1` (a Python process
terminated by an uncaught exception) when printing raises. -/
def processExit (files : List TfFile) : Nat :=
  let res := runCore files
  if printReportOk res.2.1 then res.2.2 else 1

/-- A filesystem entry: a regular file (with its read outcome) or a
directory. -/
inductive PyFS where
  | fileEnt (name : List Char) (content : ReadResult)
  | dirEnt (name : List Char) (entries : List PyFS)

/-- Collect every regular file in a directory listing, recursively. -/
def walkCollect : List PyFS → List TfFile
  | [] => []
  | PyFS.fileEnt n c :: rest => ⟨n, c⟩ :: walkCollect rest
  | PyFS.dirEnt _ sub :: rest => walkCollect sub ++ walkCollect rest

/-- `os.walk` restricted to what the script uses: the files reachable under
the argument.  `os.walk` on a path that exists but is not a directory
yields no entries at all. -/
def osWalkFiles : PyFS → List TfFile
  | PyFS.fileEnt _ _ => []
  | PyFS.dirEnt _ entries => walkCollect entries

/-- `name.endswith(suffix)`. -/
def endsWithL (suf s : List Char) : Bool :=
  decide (suf.length ≤ s.length) && decide (s.drop (s.length - suf.length) = suf)

/-- `scan_terraform_files`: every walked file whose name ends with `.tf` or
`.tfvars`. -/
def scan_terraform_files (fs : PyFS) : List TfFile :=
  (osWalkFiles fs).filter (fun f => endsWithL ".tf".toList f.path || endsWithL ".tfvars".toList f.path)

/-- Outcome of `main`: usage error, missing directory, or a completed run
with its report and process exit code. -/
inductive MainResult where
  | usageError
  | dirNotFound
  | ran (rep : Report) (exitCode : Nat)
deriving DecidableEq

/-- `main`: wrong argument count exits 1 with a usage message; a path that
does not exist (`target = none`) exits 1; otherwise the run happens on the
files discovered under the path (`os.path.exists` passes for ANY existing
entry, directory or not). -/
def pyMain (argv : List (List Char)) (target : Option PyFS) : MainResult :=
  if argv.length ≠ 2 then MainResult.usageError
  else
    match target with
    | none => MainResult.dirNotFound
    | some fs =>
      let files := scan_terraform_files fs
      let res := runCore files
      MainResult.ran res.2.1 (if printReportOk res.2.1 then res.2.2 else 1)

/-- Classifier for the two issue kinds that flag a resource. -/
def resIssue (i : Issue) : Bool :=
  i.type = IssueType.missing_daily_cost || i.type = IssueType.invalid_daily_cost

/-- The issues contributed during parsing by one file: exactly one
`parse_error` for a file whose read raises, none otherwise. -/
def errIssueOf (f : TfFile) : List Issue :=
  match f.content with
  | ReadResult.readError e => [parseErrorIssue f.path e]
  | ReadResult.ok _ => []

/-- The records contributed by one file: none when its read raises. -/
def okRecords (f : TfFile) : List ResourceInfo :=
  match f.content with
  | ReadResult.readError _ => []
  | ReadResult.ok c => parse_coder_metadata_resources f.path c

/-- The issues appended by `validate_resources` over a record list, in
order. -/
def issuesOfAll : List ResourceInfo → List Issue
  | [] => []
  | r :: rs => issuesOf r ++ issuesOfAll rs

/-- The `parse_error` issues appended by the parsing loop, in file order. -/
def errIssuesAll : List TfFile → List Issue
  | [] => []
  | f :: fs => errIssueOf f ++ errIssuesAll fs

/-- All records collected by the parsing loop, in file order. -/
def okRecordsAll : List TfFile → List ResourceInfo
  | [] => []
  | f :: fs => okRecords f ++ okRecordsAll fs

/-- A string decomposes as one occurrence of the resource pattern at its
front: the keyword, whitespace, the quoted type, whitespace, a quoted
nonempty identifier, optional whitespace, and a brace-delimited nonempty
body that contains no closing brace (so the captured body extends exactly
up to the FIRST closing brace after the opening one). -/
def ResourceDecomp (s nm body rest : List Char) : Prop :=
  ∃ w1 w2 w3,
    s = resourceKw ++ w1 ++ typeKw ++ w2 ++ ['"'] ++ nm ++ ['"'] ++ w3 ++ ['{'] ++ body ++ ['}'] ++ rest
    ∧ w1 ≠ [] ∧ w2 ≠ []
    ∧ (∀ c ∈ w1, isPySpace c = true) ∧ (∀ c ∈ w2, isPySpace c = true)
    ∧ (∀ c ∈ w3, isPySpace c = true)
    ∧ nm ≠ [] ∧ (∀ c ∈ nm, c ≠ '"') ∧ body ≠ [] ∧ (∀ c ∈ body, c ≠ '}')

/-- The body text contains an attribute assignment `daily_cost = <token>`:
somewhere in it, the literal `daily_cost`, optional whitespace, `=`,
optional whitespace, and a nonempty run of non-whitespace characters. -/
def IsDCAssign (body : List Char) : Prop :=
  ∃ pre w1 w2 tok post,
    body = pre ++ dcKw ++ w1 ++ ['='] ++ w2 ++ tok ++ post
    ∧ (∀ c ∈ w1, isPySpace c = true) ∧ (∀ c ∈ w2, isPySpace c = true)
    ∧ tok ≠ [] ∧ (∀ c ∈ tok, isPySpace c = false)

/-- The captured token is a verbatim maximal run: as `IsDCAssign`, and the
text right after the token is either empty or starts with whitespace. -/
def DCCapture (body tok : List Char) : Prop :=
  ∃ pre w1 w2 post,
    body = pre ++ dcKw ++ w1 ++ ['='] ++ w2 ++ tok ++ post
    ∧ (∀ c ∈ w1, isPySpace c = true) ∧ (∀ c ∈ w2, isPySpace c = true)
    ∧ tok ≠ [] ∧ (∀ c ∈ tok, isPySpace c = false)
    ∧ (∀ c r', post = c :: r' → isPySpace c = true)

/-- Concrete content: three compliant resources, one with an invalid value
and one with the attribute missing. -/
def demoText : List Char :=
  ("resource \"coder_metadata\" \"a\" \x7bdaily_cost = 5\x7d\n" ++
   "resource \"coder_metadata\" \"b\" \x7bdaily_cost = 2.5\x7d\n" ++
   "resource \"coder_metadata\" \"c\" \x7bdaily_cost = 1\x7d\n" ++
   "resource \"coder_metadata\" \"d\" \x7bdaily_cost = 0\x7d\n" ++
   "resource \"coder_metadata\" \"e\" \x7b x \x7d\n").toList

/-- The demo content as a successfully read `.tf` file. -/
def demoFile : TfFile := ⟨"main.tf".toList, ReadResult.ok demoText⟩

/-- Concrete content with a nested resource occurrence: a second full
occurrence of the pattern begins inside the body of the first (the body of
`a` runs up to the first closing brace, which is the one after `x`). -/
def cexText : List Char :=
  "resource \"coder_metadata\" \"a\" \x7bresource \"coder_metadata\" \"b\" \x7bx\x7d".toList

/-- A doubly quoted token: `""5""`. -/
def cexToken : List Char := "\"\"5\"\"".toList

/-- Concrete content with a single resource block. -/
def c6Text : List Char :=
  "resource \"coder_metadata\" \"a\" \x7bdaily_cost = 7\x7d".toList

/-- The single match of `c6Text`. -/
def c6Match : RMatch := ⟨"a".toList, "daily_cost = 7".toList, 0⟩

/-- A file whose read raises. -/
def badFileA : TfFile := ⟨"a.tf".toList, ReadResult.readError "boom".toList⟩

/-- A run over the single unreadable file. -/
def badInput : List TfFile := [badFileA]

/-- A record whose required attribute is absent. -/
def sampleMissing : ResourceInfo :=
  { file := "m.tf".toList, resource_name := "a".toList, resource_block := []
    has_daily_cost := false, daily_cost_value := none, line_number := 1 }

/-! Basic facts about the matcher building blocks. -/

theorem matchLit_eq : ∀ (pre s r : List Char), matchLit pre s = some r → s = pre ++ r := by
  intro pre
  induction pre with
  | nil =>
    intro s r h
    simp only [matchLit, Option.some.injEq] at h
    simp [h]
  | cons c ps ih =>
    intro s r h
    cases s with
    | nil => simp [matchLit] at h
    | cons x xs =>
      simp only [matchLit] at h
      by_cases hx : x = c
      · rw [if_pos hx] at h
        subst hx
        simpa using ih xs r h
      · rw [if_neg hx] at h
        exact absurd h (by simp)

theorem matchLit_append : ∀ (pre r : List Char), matchLit pre (pre ++ r) = some r := by
  intro pre
  induction pre with
  | nil => intro r; rfl
  | cons c ps ih => intro r; simp [matchLit, ih]

theorem dropWhile_head_false {p : Char → Bool} :
    ∀ (l : List Char) (c : Char) (r : List Char), l.dropWhile p = c :: r → p c = false := by
  intro l
  induction l with
  | nil => intro c r h; simp [List.dropWhile] at h
  | cons a as ih =>
    intro c r h
    cases hpa : p a with
    | true =>
      rw [List.dropWhile_cons, if_pos hpa] at h
      exact ih _ _ h
    | false =>
      rw [List.dropWhile_cons, if_neg (by simp [hpa])] at h
      injection h with h1 _
      subst h1
      exact hpa

theorem dropWhile_all_append {p : Char → Bool} :
    ∀ (w r : List Char), (∀ c ∈ w, p c = true) → (w ++ r).dropWhile p = r.dropWhile p := by
  intro w
  induction w with
  | nil => intro r _; rfl
  | cons a as ih =>
    intro r hw
    rw [List.cons_append, List.dropWhile_cons, if_pos (hw a (by simp))]
    exact ih r (fun c hc => hw c (by simp [hc]))

theorem dropWhile_eq_self_of_head {p : Char → Bool} :
    ∀ (r : List Char), (∀ c r', r = c :: r' → p c = false) → r.dropWhile p = r := by
  intro r hr
  cases r with
  | nil => rfl
  | cons c r' => rw [List.dropWhile_cons, if_neg (by simp [hr c r' rfl])]

theorem ws1Step_spec : ∀ (s r : List Char), ws1Step s = some r →
    ∃ w, s = w ++ r ∧ w ≠ [] ∧ (∀ c ∈ w, isPySpace c = true)
      ∧ (∀ c r', r = c :: r' → isPySpace c = false) := by
  intro s r h
  cases s with
  | nil => simp [ws1Step] at h
  | cons c rest =>
    simp only [ws1Step] at h
    by_cases hc : isPySpace c = true
    · rw [if_pos hc] at h
      injection h with h1
      refine ⟨c :: rest.takeWhile isPySpace, ?_, by simp, ?_, ?_⟩
      · rw [← h1, List.cons_append, List.takeWhile_append_dropWhile]
      · intro x hx
        rcases List.mem_cons.mp hx with h2 | h2
        · rw [h2]; exact hc
        · exact List.mem_takeWhile_imp h2
      · intro x r' hx
        exact dropWhile_head_false rest x r' (by rw [h1, hx])
    · rw [if_neg hc] at h
      exact absurd h (by simp)

theorem ws1Step_all : ∀ (w r : List Char), w ≠ [] → (∀ c ∈ w, isPySpace c = true) →
    (∀ c r', r = c :: r' → isPySpace c = false) → ws1Step (w ++ r) = some r := by
  intro w r hne hw hr
  cases w with
  | nil => exact absurd rfl hne
  | cons a as =>
    simp only [List.cons_append, ws1Step]
    rw [if_pos (hw a (by simp))]
    rw [dropWhile_all_append as r (fun c hc => hw c (by simp [hc]))]
    rw [dropWhile_eq_self_of_head r hr]

theorem tokStep_spec {p : Char → Bool} : ∀ (s t r : List Char), tokStep p s = some (t, r) →
    s = t ++ r ∧ t ≠ [] ∧ (∀ c ∈ t, p c = true) ∧ (∀ c r', r = c :: r' → p c = false) := by
  intro s t r h
  cases s with
  | nil => simp [tokStep] at h
  | cons c rest =>
    simp only [tokStep] at h
    by_cases hc : p c = true
    · rw [if_pos hc] at h
      injection h with h1
      injection h1 with ht hr
      refine ⟨?_, ?_, ?_, ?_⟩
      · rw [← ht, ← hr, List.cons_append, List.takeWhile_append_dropWhile]
      · rw [← ht]; simp
      · intro x hx
        rw [← ht] at hx
        rcases List.mem_cons.mp hx with h2 | h2
        · rw [h2]; exact hc
        · exact List.mem_takeWhile_imp h2
      · intro x r' hx
        exact dropWhile_head_false rest x r' (by rw [hr, hx])
    · rw [if_neg hc] at h
      exact absurd h (by simp)

theorem tokStep_isSome {p : Char → Bool} : ∀ (c : Char) (rest : List Char), p c = true →
    (tokStep p (c :: rest)).isSome = true := by
  intro c rest hc
  simp [tokStep, hc]

theorem matchAt_spec : ∀ (cs nm body rest : List Char),
    matchAt cs = some (nm, body, rest) → ResourceDecomp cs nm body rest := by
  intro cs nm body rest h
  unfold matchAt at h
  cases h1 : matchLit resourceKw cs with
  | none => simp [h1] at h
  | some s1 =>
  simp only [h1] at h
  cases h2 : ws1Step s1 with
  | none => simp [h2] at h
  | some s2 =>
  simp only [h2] at h
  cases h3 : matchLit typeKw s2 with
  | none => simp [h3] at h
  | some s3 =>
  simp only [h3] at h
  cases h4 : ws1Step s3 with
  | none => simp [h4] at h
  | some s4 =>
  simp only [h4] at h
  cases h5 : matchLit ['"'] s4 with
  | none => simp [h5] at h
  | some s5 =>
  simp only [h5] at h
  cases h6 : tokStep notQuoteCh s5 with
  | none => simp [h6] at h
  | some pr6 =>
  simp only [h6] at h
  obtain ⟨nm0, s6⟩ := pr6
  cases h7 : matchLit ['"'] s6 with
  | none => simp [h7] at h
  | some s7 =>
  simp only [h7] at h
  cases h8 : matchLit ['{'] (s7.dropWhile isPySpace) with
  | none => simp [h8] at h
  | some s9 =>
  simp only [h8] at h
  cases h9 : tokStep notBrace s9 with
  | none => simp [h9] at h
  | some pr9 =>
  simp only [h9] at h
  obtain ⟨body0, s10⟩ := pr9
  cases h10 : matchLit ['}'] s10 with
  | none => simp [h10] at h
  | some s11 =>
  simp only [h10, Option.some.injEq, Prod.mk.injEq] at h
  obtain ⟨hnm, hbody, hrest⟩ := h
  subst hnm; subst hbody; subst hrest
  obtain ⟨w1, hs1, hw1ne, hw1, _⟩ := ws1Step_spec s1 s2 h2
  obtain ⟨w2, hs3, hw2ne, hw2, _⟩ := ws1Step_spec s3 s4 h4
  obtain ⟨hs5, hnmne, hnmc, _⟩ := tokStep_spec s5 nm0 s6 h6
  obtain ⟨hs9, hbodyne, hbodyc, _⟩ := tokStep_spec s9 body0 s10 h9
  have hcs := matchLit_eq _ _ _ h1
  have hs2 := matchLit_eq _ _ _ h3
  have hs4 := matchLit_eq _ _ _ h5
  have hs6 := matchLit_eq _ _ _ h7
  have hdw := matchLit_eq _ _ _ h8
  have hs10 := matchLit_eq _ _ _ h10
  obtain ⟨w3, hs7, hw3⟩ :
      ∃ w3, s7 = w3 ++ (['{'] ++ s9) ∧ ∀ c ∈ w3, isPySpace c = true :=
    ⟨s7.takeWhile isPySpace,
      by rw [← hdw, List.takeWhile_append_dropWhile],
      fun c hc => List.mem_takeWhile_imp hc⟩
  refine ⟨w1, w2, w3, ?_, hw1ne, hw2ne, hw1, hw2, hw3, hnmne, ?_, hbodyne, ?_⟩
  · rw [hcs, hs1, hs2, hs3, hs4, hs5, hs6, hs7, hs9, hs10]
    simp [List.append_assoc]
  · intro c hc
    have := hnmc c hc
    simpa [notQuoteCh] using this
  · intro c hc
    have := hbodyc c hc
    simpa [notBrace] using this

theorem finditerGo_mem : ∀ (cs : List Char) (fuel p : Nat) (m : RMatch), m ∈ finditerGo cs fuel p →
    ∃ rest, matchAt (cs.drop m.rpos) = some (m.rname, m.rbody, rest) := by
  intro cs fuel
  induction fuel with
  | zero => intro p m h; simp [finditerGo] at h
  | succ f ih =>
    intro p m h
    rw [finditerGo] at h
    by_cases hp : cs.length ≤ p
    · rw [if_pos hp] at h
      simp at h
    · rw [if_neg hp] at h
      cases hm : matchAt (cs.drop p) with
      | none =>
        simp only [hm] at h
        exact ih _ m h
      | some tr =>
        obtain ⟨nm, body, rest⟩ := tr
        simp only [hm] at h
        rcases List.mem_cons.mp h with h1 | h1
        · subst h1
          exact ⟨rest, hm⟩
        · exact ih _ m h1

theorem pyFinditer_mem : ∀ (cs : List Char) (m : RMatch), m ∈ pyFinditer cs →
    ∃ rest, matchAt (cs.drop m.rpos) = some (m.rname, m.rbody, rest) := by
  intro cs m h
  exact finditerGo_mem cs (cs.length + 1) 0 m h

theorem dcMatchAt_spec : ∀ (cs tok : List Char), dcMatchAt cs = some tok →
    ∃ w1 w2 post, cs = dcKw ++ w1 ++ ['='] ++ w2 ++ tok ++ post
      ∧ (∀ c ∈ w1, isPySpace c = true) ∧ (∀ c ∈ w2, isPySpace c = true)
      ∧ tok ≠ [] ∧ (∀ c ∈ tok, isPySpace c = false)
      ∧ (∀ c r', post = c :: r' → isPySpace c = true) := by
  intro cs tok h
  unfold dcMatchAt at h
  cases h1 : matchLit dcKw cs with
  | none => simp [h1] at h
  | some s1 =>
  simp only [h1] at h
  cases h2 : matchLit ['='] (s1.dropWhile isPySpace) with
  | none => simp [h2] at h
  | some s3 =>
  simp only [h2] at h
  cases h3 : tokStep notSpace (s3.dropWhile isPySpace) with
  | none => simp [h3] at h
  | some pr =>
  obtain ⟨tok0, post⟩ := pr
  simp only [h3, Option.some.injEq] at h
  subst h
  have hcs := matchLit_eq _ _ _ h1
  have hds1 := matchLit_eq _ _ _ h2
  have hds3 := tokStep_spec _ _ _ h3
  obtain ⟨hsplit, htne, htok, hpost⟩ := hds3
  obtain ⟨w1, e1, hw1⟩ :
      ∃ w, s1 = w ++ (['='] ++ s3) ∧ ∀ c ∈ w, isPySpace c = true :=
    ⟨s1.takeWhile isPySpace,
      by rw [← hds1, List.takeWhile_append_dropWhile],
      fun c hc => List.mem_takeWhile_imp hc⟩
  obtain ⟨w2, e2, hw2⟩ :
      ∃ w, s3 = w ++ (tok0 ++ post) ∧ ∀ c ∈ w, isPySpace c = true :=
    ⟨s3.takeWhile isPySpace,
      by rw [← hsplit, List.takeWhile_append_dropWhile],
      fun c hc => List.mem_takeWhile_imp hc⟩
  refine ⟨w1, w2, post, ?_, hw1, hw2, htne, ?_, ?_⟩
  · rw [hcs, e1, e2]
    simp [List.append_assoc]
  · intro c hc
    have := htok c hc
    simpa [notSpace] using this
  · intro c r' hr
    have := hpost c r' hr
    simpa [notSpace] using this

theorem dcMatchAt_isSome : ∀ (w1 w2 tok post : List Char),
    (∀ c ∈ w1, isPySpace c = true) → (∀ c ∈ w2, isPySpace c = true) →
    tok ≠ [] → (∀ c ∈ tok, isPySpace c = false) →
    (dcMatchAt (dcKw ++ (w1 ++ ('=' :: (w2 ++ (tok ++ post)))))).isSome = true := by
  intro w1 w2 tok post hw1 hw2 htne htok
  cases tok with
  | nil => exact absurd rfl htne
  | cons t ts =>
  have e2 : (w1 ++ ('=' :: (w2 ++ ((t :: ts) ++ post)))).dropWhile isPySpace
      = '=' :: (w2 ++ ((t :: ts) ++ post)) := by
    rw [dropWhile_all_append w1 _ hw1]
    refine dropWhile_eq_self_of_head _ ?_
    intro c r' hcr
    injection hcr with h1 _
    subst h1
    decide
  have e3 : matchLit ['='] ('=' :: (w2 ++ ((t :: ts) ++ post)))
      = some (w2 ++ ((t :: ts) ++ post)) := by simp [matchLit]
  have e4 : (w2 ++ ((t :: ts) ++ post)).dropWhile isPySpace = (t :: ts) ++ post := by
    rw [dropWhile_all_append w2 _ hw2]
    refine dropWhile_eq_self_of_head _ ?_
    intro c r' hcr
    rw [List.cons_append] at hcr
    injection hcr with h1 _
    subst h1
    exact htok t (by simp)
  have ht : notSpace t = true := by simp [notSpace, htok t (by simp)]
  cases h6 : tokStep notSpace ((t :: ts) ++ post) with
  | none =>
    rw [List.cons_append] at h6
    simp [tokStep, ht] at h6
  | some pr =>
    obtain ⟨tk, r⟩ := pr
    have key : dcMatchAt (dcKw ++ (w1 ++ ('=' :: (w2 ++ ((t :: ts) ++ post))))) = some tk := by
      unfold dcMatchAt
      rw [matchLit_append]
      show (match matchLit ['='] ((w1 ++ ('=' :: (w2 ++ ((t :: ts) ++ post)))).dropWhile isPySpace) with
        | none => none
        | some s3 =>
          match tokStep notSpace (s3.dropWhile isPySpace) with
          | none => none
          | some (tok, _) => some tok) = some tk
      rw [e2, e3]
      show (match tokStep notSpace ((w2 ++ ((t :: ts) ++ post)).dropWhile isPySpace) with
        | none => none
        | some (tok, _) => some tok) = some tk
      rw [e4, h6]
    rw [key]
    rfl

theorem dcSearch_sound : ∀ (cs tok : List Char), dcSearch cs = some tok → DCCapture cs tok := by
  intro cs
  induction cs with
  | nil => intro tok h; simp [dcSearch] at h
  | cons c rest ih =>
    intro tok h
    rw [dcSearch] at h
    cases hm : dcMatchAt (c :: rest) with
    | some t =>
      simp only [hm, Option.some.injEq] at h
      subst h
      obtain ⟨w1, w2, post, hb, hw1, hw2, htne, htok, hpost⟩ := dcMatchAt_spec _ _ hm
      exact ⟨[], w1, w2, post, by simpa using hb, hw1, hw2, htne, htok, hpost⟩
    | none =>
      simp only [hm] at h
      obtain ⟨pre, w1, w2, post, hb, hw1, hw2, htne, htok, hpost⟩ := ih tok h
      exact ⟨c :: pre, w1, w2, post, by simp [hb], hw1, hw2, htne, htok, hpost⟩

theorem dcSearch_isSome_of : ∀ (pre rest : List Char), (dcMatchAt rest).isSome = true →
    (dcSearch (pre ++ rest)).isSome = true := by
  intro pre
  induction pre with
  | nil =>
    intro rest h
    cases rest with
    | nil => exact absurd h (by decide)
    | cons c r =>
      rw [List.nil_append, dcSearch]
      cases hm : dcMatchAt (c :: r) with
      | none => rw [hm] at h; simp at h
      | some t => simp [hm]
  | cons a pre' ih =>
    intro rest h
    rw [List.cons_append, dcSearch]
    cases hm : dcMatchAt (a :: (pre' ++ rest)) with
    | none => simp only [hm]; exact ih rest h
    | some t => simp [hm]

theorem dcSearch_isSome_iff : ∀ (body : List Char),
    (dcSearch body).isSome = true ↔ IsDCAssign body := by
  intro body
  constructor
  · intro h
    obtain ⟨tok, htok⟩ := Option.isSome_iff_exists.mp h
    obtain ⟨pre, w1, w2, post, hb, hw1, hw2, htne, hns, _⟩ := dcSearch_sound body tok htok
    exact ⟨pre, w1, w2, tok, post, hb, hw1, hw2, htne, hns⟩
  · rintro ⟨pre, w1, w2, tok, post, hb, hw1, hw2, htne, htok⟩
    have hm := dcMatchAt_isSome w1 w2 tok post hw1 hw2 htne htok
    have hb' : body = pre ++ (dcKw ++ (w1 ++ ('=' :: (w2 ++ (tok ++ post))))) := by
      rw [hb]; simp [List.append_assoc]
    rw [hb']
    exact dcSearch_isSome_of pre _ hm

/-! Facts about the aggregator pipeline. -/

theorem validateOne_checked : ∀ (st : Validator) (r : ResourceInfo),
    (validateOne st r).resources_checked = st.resources_checked + 1 := by
  intro st r
  unfold validateOne
  cases hr : r.has_daily_cost <;>
    cases hv : validate_daily_cost_value (r.daily_cost_value.getD []) <;>
    simp [hr, hv]

theorem validateOne_with : ∀ (st : Validator) (r : ResourceInfo),
    (validateOne st r).resources_with_issues = st.resources_with_issues + (issuesOf r).length := by
  intro st r
  unfold validateOne issuesOf
  cases hr : r.has_daily_cost <;>
    cases hv : validate_daily_cost_value (r.daily_cost_value.getD []) <;>
    simp [hr, hv]

theorem validateOne_issues : ∀ (st : Validator) (r : ResourceInfo),
    (validateOne st r).issues = st.issues ++ issuesOf r := by
  intro st r
  unfold validateOne issuesOf
  cases hr : r.has_daily_cost <;>
    cases hv : validate_daily_cost_value (r.daily_cost_value.getD []) <;>
    simp [hr, hv]

theorem validate_resources_checked : ∀ (rs : List ResourceInfo) (st : Validator),
    (validate_resources st rs).resources_checked = st.resources_checked + rs.length := by
  intro rs
  induction rs with
  | nil => intro st; simp [validate_resources]
  | cons r rs ih =>
    intro st
    rw [validate_resources, ih, validateOne_checked, List.length_cons]
    omega

theorem validate_resources_with : ∀ (rs : List ResourceInfo) (st : Validator),
    (validate_resources st rs).resources_with_issues
      = st.resources_with_issues + (issuesOfAll rs).length := by
  intro rs
  induction rs with
  | nil => intro st; simp [validate_resources, issuesOfAll]
  | cons r rs ih =>
    intro st
    rw [validate_resources, ih, validateOne_with]
    simp only [issuesOfAll, List.length_append]
    omega

theorem validate_resources_issues : ∀ (rs : List ResourceInfo) (st : Validator),
    (validate_resources st rs).issues = st.issues ++ issuesOfAll rs := by
  intro rs
  induction rs with
  | nil => intro st; simp [validate_resources, issuesOfAll]
  | cons r rs ih =>
    intro st
    rw [validate_resources, ih, validateOne_issues]
    simp [issuesOfAll, List.append_assoc]

theorem parsePhase_issues : ∀ (fs : List TfFile) (st : Validator),
    (parsePhase st fs).1.issues = st.issues ++ errIssuesAll fs := by
  intro fs
  induction fs with
  | nil => intro st; simp [parsePhase, errIssuesAll]
  | cons f fs ih =>
    intro st
    cases hf : f.content with
    | readError e =>
      simp [parsePhase, parseFile, hf, ih, errIssuesAll, errIssueOf, List.append_assoc]
    | ok c =>
      simp [parsePhase, parseFile, hf, ih, errIssuesAll, errIssueOf]

theorem parsePhase_checked : ∀ (fs : List TfFile) (st : Validator),
    (parsePhase st fs).1.resources_checked = st.resources_checked := by
  intro fs
  induction fs with
  | nil => intro st; simp [parsePhase]
  | cons f fs ih =>
    intro st
    cases hf : f.content with
    | readError e => simp [parsePhase, parseFile, hf, ih]
    | ok c => simp [parsePhase, parseFile, hf, ih]

theorem parsePhase_with : ∀ (fs : List TfFile) (st : Validator),
    (parsePhase st fs).1.resources_with_issues = st.resources_with_issues := by
  intro fs
  induction fs with
  | nil => intro st; simp [parsePhase]
  | cons f fs ih =>
    intro st
    cases hf : f.content with
    | readError e => simp [parsePhase, parseFile, hf, ih]
    | ok c => simp [parsePhase, parseFile, hf, ih]

theorem parsePhase_records : ∀ (fs : List TfFile) (st : Validator),
    (parsePhase st fs).2 = okRecordsAll fs := by
  intro fs
  induction fs with
  | nil => intro st; simp [parsePhase, okRecordsAll]
  | cons f fs ih =>
    intro st
    cases hf : f.content with
    | readError e => simp [parsePhase, parseFile, hf, ih, okRecordsAll, okRecords]
    | ok c => simp [parsePhase, parseFile, hf, ih, okRecordsAll, okRecords]

theorem issuesOf_filter : ∀ (r : ResourceInfo), (issuesOf r).filter resIssue = issuesOf r := by
  intro r
  unfold issuesOf
  cases hr : r.has_daily_cost <;>
    cases hv : validate_daily_cost_value (r.daily_cost_value.getD []) <;>
    simp [hr, hv, resIssue, missingIssue, invalidIssue]

theorem issuesOfAll_filter : ∀ (rs : List ResourceInfo),
    (issuesOfAll rs).filter resIssue = issuesOfAll rs := by
  intro rs
  induction rs with
  | nil => simp [issuesOfAll]
  | cons r rs ih => simp [issuesOfAll, List.filter_append, issuesOf_filter, ih]

theorem errIssueOf_filter : ∀ (f : TfFile), (errIssueOf f).filter resIssue = [] := by
  intro f
  cases hf : f.content with
  | readError e => simp [errIssueOf, hf, parseErrorIssue, resIssue]
  | ok c => simp [errIssueOf, hf]

theorem errIssuesAll_filter : ∀ (fs : List TfFile), (errIssuesAll fs).filter resIssue = [] := by
  intro fs
  induction fs with
  | nil => simp [errIssuesAll]
  | cons f fs ih => simp [errIssuesAll, List.filter_append, errIssueOf_filter, ih]

theorem issuesOf_length_le : ∀ (r : ResourceInfo), (issuesOf r).length ≤ 1 := by
  intro r
  unfold issuesOf
  cases hr : r.has_daily_cost <;>
    cases hv : validate_daily_cost_value (r.daily_cost_value.getD []) <;>
    simp [hr, hv]

theorem issuesOfAll_length_le : ∀ (rs : List ResourceInfo),
    (issuesOfAll rs).length ≤ rs.length := by
  intro rs
  induction rs with
  | nil => simp [issuesOfAll]
  | cons r rs ih =>
    have h := issuesOf_length_le r
    simp only [issuesOfAll, List.length_append, List.length_cons]
    omega

theorem runCore_state_issues : ∀ (files : List TfFile),
    (runCore files).1.issues = errIssuesAll files ++ issuesOfAll (okRecordsAll files) := by
  intro files
  show (validate_resources (parsePhase initValidator files).1 (parsePhase initValidator files).2).issues = _
  rw [validate_resources_issues, parsePhase_issues, parsePhase_records]
  simp [initValidator]

theorem runCore_state_with : ∀ (files : List TfFile),
    (runCore files).1.resources_with_issues = (issuesOfAll (okRecordsAll files)).length := by
  intro files
  show (validate_resources (parsePhase initValidator files).1 (parsePhase initValidator files).2).resources_with_issues = _
  rw [validate_resources_with, parsePhase_with, parsePhase_records]
  simp [initValidator]

theorem runCore_state_checked : ∀ (files : List TfFile),
    (runCore files).1.resources_checked = (okRecordsAll files).length := by
  intro files
  show (validate_resources (parsePhase initValidator files).1 (parsePhase initValidator files).2).resources_checked = _
  rw [validate_resources_checked, parsePhase_checked, parsePhase_records]
  simp [initValidator]

theorem runCore_status_iff : ∀ (files : List TfFile),
    ((runCore files).2.1.status = RunStatus.PASS ↔ (runCore files).1.issues.filter resIssue = []) := by
  intro files
  have h1 : (runCore files).2.1.status
      = (if (runCore files).1.resources_with_issues = 0 then RunStatus.PASS else RunStatus.FAIL) := rfl
  rw [h1, runCore_state_issues, runCore_state_with, List.filter_append, errIssuesAll_filter,
    issuesOfAll_filter, List.nil_append]
  by_cases hz : (issuesOfAll (okRecordsAll files)).length = 0
  · simp [hz, List.length_eq_zero.mp hz]
  · have hne : issuesOfAll (okRecordsAll files) ≠ [] := by
      intro hh
      exact hz (by simp [hh])
    simp [hz, hne]

/-! Claim theorems. -/

/-- C1: the run status is PASS iff no missing/invalid-attribute issue was
recorded (parse_error issues are filtered out and never affect it), and the
code returned by `run_validation` is 0 iff the status is PASS.  The claim's
final part fails on the code: at the concrete failing input (one unreadable
`.tf` file) the status is PASS, yet the process exit code is 1 because
`print_report` reads the absent `message` key of the `parse_error` issue
and the uncaught exception terminates the process. -/
theorem claim_C1_exit_code :
    (∀ files : List TfFile,
      ((runCore files).2.1.status = RunStatus.PASS ↔ (runCore files).1.issues.filter resIssue = [])
      ∧ (runCore files).2.2 = (if (runCore files).2.1.status = RunStatus.PASS then 0 else 1))
    ∧ ((runCore badInput).2.1.status = RunStatus.PASS ∧ processExit badInput = 1) := by
  constructor
  · intro files
    exact ⟨runCore_status_iff files, rfl⟩
  · exact ⟨by decide, by decide⟩

/-- C2 counterexample: for the doubly quoted token `""5""`, the code
validates it (it strips ALL surrounding quotes, leaving `5`), while
stripping a single layer of surrounding quotes leaves `"5"`, which does not
parse as a float — so validation success is NOT equivalent to the
single-layer-strip predicate of the claim. -/
theorem claim_C2_counterexample :
    validate_daily_cost_value cexToken = true
    ∧ pyFloatPos (stripOneQuoteLayer cexToken) = false := by
  constructor
  · decide
  · decide

/-- C2 amended: validation succeeds iff stripping ALL leading and trailing
single/double quote characters from the token yields a string that parses
as a float strictly greater than zero (the empty-token guard is subsumed:
the empty string never parses). -/
theorem claim_C2_amended : ∀ (value : List Char),
    validate_daily_cost_value value = true ↔ pyFloatPos (pyStripQuotes value) = true := by
  intro value
  cases value with
  | nil => decide
  | cons c cs => exact Iff.rfl

/-- C3: validation succeeds on the positive numeric tokens `"12.5"`
(double-quoted), `10` (bare) and `'3.0'` (single-quoted), and fails on
`0`, `-5`, `"abc"` and the empty token. -/
theorem claim_C3_examples :
    validate_daily_cost_value "\"12.5\"".toList = true
    ∧ validate_daily_cost_value "10".toList = true
    ∧ validate_daily_cost_value ('\'' :: "3.0".toList ++ ['\'']) = true
    ∧ validate_daily_cost_value "0".toList = false
    ∧ validate_daily_cost_value "-5".toList = false
    ∧ validate_daily_cost_value "\"abc\"".toList = false
    ∧ validate_daily_cost_value [] = false := by
  refine ⟨by decide, by decide, by decide, by decide, by decide, by decide, by decide⟩

/-- C4: the claim is right and the code is wrong.  The missing/invalid
issue dictionaries do carry a `message`, but the `parse_error` dictionary
has none, while `print_report` reads `issue['message']` for every issue;
on the concrete run over one unreadable file, the issue list is a single
message-less dictionary and printing cannot complete. -/
theorem claim_C4_message_bug :
    (∀ fp err : List Char, (parseErrorIssue fp err).message = none)
    ∧ (∀ r : ResourceInfo, (missingIssue r).message.isSome = true)
    ∧ (∀ r : ResourceInfo, (invalidIssue r).message.isSome = true)
    ∧ (runCore badInput).2.1.issues.map Issue.message = [none]
    ∧ printReportOk (runCore badInput).2.1 = false := by
  refine ⟨fun fp err => rfl, fun r => rfl, fun r => rfl, by decide, by decide⟩

/-- C5 counterexample: in `cexText` a full occurrence of the resource
pattern with identifier `b` begins at index 31 (inside the body matched for
`a`), but extraction produces only the record named `a` — so it is NOT the
case that every occurrence yields a record carrying its identifier. -/
theorem claim_C5_counterexample :
    matchAt (cexText.drop 31) = some ("b".toList, "x".toList, [])
    ∧ (pyFinditer cexText).map RMatch.rname = ["a".toList]
    ∧ ¬ (∃ m ∈ pyFinditer cexText, m.rname = "b".toList)
    ∧ (parse_coder_metadata_resources "f.tf".toList cexText).map ResourceInfo.resource_name
        = ["a".toList] := by
  refine ⟨by decide, by decide, by decide, by decide⟩

/-- C5 amended: extraction produces exactly one record per match of the
left-to-right non-overlapping scan; every such match sits at its reported
index and decomposes as keyword, whitespace, quoted type, whitespace,
quoted identifier (the captured name), optional whitespace, then an opening
brace, the captured body — which contains no closing brace — and the first
subsequent closing brace.  Occurrences overlapping an earlier match (such
as one nested in a matched body) are skipped. -/
theorem claim_C5_amended : ∀ (fp cs : List Char),
    parse_coder_metadata_resources fp cs = (pyFinditer cs).map (mkResourceInfo fp cs)
    ∧ (∀ m ∈ pyFinditer cs, ∃ rest,
        matchAt (cs.drop m.rpos) = some (m.rname, m.rbody, rest)
        ∧ ResourceDecomp (cs.drop m.rpos) m.rname m.rbody rest) := by
  intro fp cs
  refine ⟨rfl, ?_⟩
  intro m hm
  obtain ⟨rest, hrest⟩ := pyFinditer_mem cs m hm
  exact ⟨rest, hrest, matchAt_spec _ _ _ _ hrest⟩

/-- C5 witness: the single match of the one-block text `c6Text` matches at
index 0 and decomposes as claimed. -/
theorem claim_C5_witness :
    ∃ rest, matchAt (c6Text.drop c6Match.rpos) = some (c6Match.rname, c6Match.rbody, rest)
      ∧ ResourceDecomp (c6Text.drop c6Match.rpos) c6Match.rname c6Match.rbody rest :=
  (claim_C5_amended "m.tf".toList c6Text).2 c6Match (by decide)

/-- C6: for every extracted block, the `has_daily_cost` flag is true iff
the captured body contains an assignment `daily_cost = <token>` (literal
keyword, optional whitespace, `=`, optional whitespace, a nonempty run of
non-whitespace characters), and the stored value is the verbatim captured
token — the maximal non-whitespace run, quotes included. -/
theorem claim_C6_attribute :
    ∀ (fp cs : List Char) (m : RMatch), m ∈ pyFinditer cs →
      ((mkResourceInfo fp cs m).has_daily_cost = true ↔ IsDCAssign m.rbody)
      ∧ (mkResourceInfo fp cs m).daily_cost_value = dcSearch m.rbody
      ∧ (∀ tok, (mkResourceInfo fp cs m).daily_cost_value = some tok → DCCapture m.rbody tok) := by
  intro fp cs m _
  refine ⟨dcSearch_isSome_iff m.rbody, rfl, ?_⟩
  intro tok htok
  exact dcSearch_sound m.rbody tok htok

/-- C6 witness: the flag and the captured token of the single block of
`c6Text`. -/
theorem claim_C6_witness :
    ((mkResourceInfo "m.tf".toList c6Text c6Match).has_daily_cost = true ↔ IsDCAssign c6Match.rbody)
    ∧ (mkResourceInfo "m.tf".toList c6Text c6Match).daily_cost_value = dcSearch c6Match.rbody
    ∧ (∀ tok, (mkResourceInfo "m.tf".toList c6Text c6Match).daily_cost_value = some tok →
        DCCapture c6Match.rbody tok) :=
  claim_C6_attribute "m.tf".toList c6Text c6Match (by decide)

/-- C7: when no resource was checked the compliance rate is the string
`0%` and the status is PASS; when resources were checked the rate is
`(checked - issues) / checked * 100` formatted to one decimal place; and
the concrete run with 3 compliant and 2 non-compliant resources yields
`60.0%`, status FAIL and return code 1. -/
theorem claim_C7_compliance :
    (∀ files : List TfFile, (runCore files).2.1.total_resources_checked = 0 →
      (runCore files).2.1.compliance_rate = "0%".toList
      ∧ (runCore files).2.1.status = RunStatus.PASS)
    ∧ (∀ files : List TfFile, 0 < (runCore files).2.1.total_resources_checked →
      (runCore files).2.1.compliance_rate
        = fmtPct1 (runCore files).2.1.total_resources_checked
            (runCore files).2.1.resources_with_issues)
    ∧ ((runCore [demoFile]).2.1.total_resources_checked = 5
      ∧ (runCore [demoFile]).2.1.resources_with_issues = 2
      ∧ (runCore [demoFile]).2.1.compliance_rate = "60.0%".toList
      ∧ (runCore [demoFile]).2.1.status = RunStatus.FAIL
      ∧ (runCore [demoFile]).2.2 = 1) := by
  refine ⟨?_, ?_, by decide, by decide, by decide, by decide, by decide⟩
  · intro files h
    have htotal : (runCore files).1.resources_checked = 0 := h
    have hlen : (okRecordsAll files).length = 0 := by
      rw [← runCore_state_checked]; exact htotal
    have hempty : okRecordsAll files = [] := List.length_eq_zero.mp hlen
    have hwith : (runCore files).1.resources_with_issues = 0 := by
      rw [runCore_state_with, hempty]; simp [issuesOfAll]
    constructor
    · have hrate : (runCore files).2.1.compliance_rate
          = (if 0 < (runCore files).1.resources_checked
              then fmtPct1 (runCore files).1.resources_checked
                (runCore files).1.resources_with_issues
              else "0%".toList) := rfl
      rw [hrate, htotal]
      simp
    · have hstat : (runCore files).2.1.status
          = (if (runCore files).1.resources_with_issues = 0
              then RunStatus.PASS else RunStatus.FAIL) := rfl
      rw [hstat, hwith]
      simp
  · intro files h
    have h' : 0 < (runCore files).1.resources_checked := h
    have hrate : (runCore files).2.1.compliance_rate
        = (if 0 < (runCore files).1.resources_checked
            then fmtPct1 (runCore files).1.resources_checked
              (runCore files).1.resources_with_issues
            else "0%".toList) := rfl
    rw [hrate, if_pos h']
    rfl

/-- C7 witness: the zero-checked case at the empty file list, and the
formatted-rate case at the concrete five-resource run. -/
theorem claim_C7_witness :
    ((runCore ([] : List TfFile)).2.1.compliance_rate = "0%".toList
      ∧ (runCore ([] : List TfFile)).2.1.status = RunStatus.PASS)
    ∧ (runCore [demoFile]).2.1.compliance_rate
        = fmtPct1 (runCore [demoFile]).2.1.total_resources_checked
            (runCore [demoFile]).2.1.resources_with_issues :=
  ⟨claim_C7_compliance.1 [] (by decide), claim_C7_compliance.2.1 [demoFile] (by decide)⟩

/-- C8: every validated record increments the checked counter by exactly
one and contributes at most one issue; a record without the attribute
yields exactly the one `missing_daily_cost` issue (never an invalid one);
and the flagged counter never exceeds the checked counter. -/
theorem claim_C8_counters :
    ∀ (st : Validator) (rs : List ResourceInfo),
      (validate_resources st rs).resources_checked = st.resources_checked + rs.length
      ∧ (validate_resources st rs).issues = st.issues ++ issuesOfAll rs
      ∧ (∀ r : ResourceInfo, (issuesOf r).length ≤ 1)
      ∧ (∀ r : ResourceInfo, r.has_daily_cost = false → issuesOf r = [missingIssue r])
      ∧ (∀ r : ResourceInfo, (missingIssue r).type = IssueType.missing_daily_cost
          ∧ (invalidIssue r).type = IssueType.invalid_daily_cost)
      ∧ (st.resources_with_issues ≤ st.resources_checked →
          (validate_resources st rs).resources_with_issues
            ≤ (validate_resources st rs).resources_checked) := by
  intro st rs
  refine ⟨validate_resources_checked rs st, validate_resources_issues rs st,
    issuesOf_length_le, ?_, fun r => ⟨rfl, rfl⟩, ?_⟩
  · intro r hr
    simp [issuesOf, hr]
  · intro hle
    rw [validate_resources_with, validate_resources_checked]
    have := issuesOfAll_length_le rs
    omega

/-- C8 witness: a concrete record with the attribute absent, validated from
the fresh state. -/
theorem claim_C8_witness :
    issuesOf sampleMissing = [missingIssue sampleMissing]
    ∧ (validate_resources initValidator [sampleMissing]).resources_with_issues
        ≤ (validate_resources initValidator [sampleMissing]).resources_checked :=
  ⟨(claim_C8_counters initValidator [sampleMissing]).2.2.2.1 sampleMissing rfl,
   (claim_C8_counters initValidator [sampleMissing]).2.2.2.2.2 (by decide)⟩

/-- C9: the parsing loop records exactly one `parse_error` issue per
unreadable file (and no other issue), returns no records for such a file,
and still collects the records of every other file in order; all collected
records are then validated. -/
theorem claim_C9_parse_errors :
    ∀ (files : List TfFile),
      (parsePhase initValidator files).1.issues = errIssuesAll files
      ∧ (parsePhase initValidator files).2 = okRecordsAll files
      ∧ (∀ (f : TfFile) (e : List Char), f.content = ReadResult.readError e →
          errIssueOf f = [parseErrorIssue f.path e] ∧ okRecords f = [])
      ∧ (runCore files).1.resources_checked = (okRecordsAll files).length := by
  intro files
  refine ⟨?_, parsePhase_records files initValidator, ?_, runCore_state_checked files⟩
  · rw [parsePhase_issues]
    simp [initValidator]
  · intro f e hf
    constructor
    · simp [errIssueOf, hf]
    · simp [okRecords, hf]

/-- C9 witness: the unreadable file `a.tf` contributes its single
`parse_error` issue and no records. -/
theorem claim_C9_witness :
    errIssueOf badFileA = [parseErrorIssue badFileA.path "boom".toList]
    ∧ okRecords badFileA = [] :=
  (claim_C9_parse_errors badInput).2.2.1 badFileA "boom".toList rfl

/-- C10: when the single path argument names an existing non-directory
entry, `main` neither reports usage nor a not-found error: the walk yields
no files, and the run reports zero checked resources, rate `0%`, status
PASS and exit code 0. -/
theorem claim_C10_nondirectory :
    ∀ (prog dirArg nm : List Char) (c : ReadResult),
      pyMain [prog, dirArg] (some (PyFS.fileEnt nm c))
        = MainResult.ran (generate_report initValidator) 0
      ∧ (generate_report initValidator).total_resources_checked = 0
      ∧ (generate_report initValidator).status = RunStatus.PASS
      ∧ (generate_report initValidator).compliance_rate = "0%".toList := by
  intro prog dirArg nm c
  exact ⟨rfl, rfl, rfl, rfl⟩
